import Mathlib

/-!
# Layered animation data model and evaluator — verification development

Shallow embedding of the layered animation core (Animation / Layer / Strip /
Output / keyframe channels / single-layer evaluator).  The `EvaluationResult`
container is embedded from `evaluation_internal.hh`; the remaining operations
(whose implementation files are not part of the sources at hand, only their
tests and declarations) are modelled from the specification, as indicated on
each definition.  Frame times are modelled as exact rationals extended with
the two infinities; machine floats are not used.

All arithmetic inside the executable definitions goes through a small layer
of kernel-computable operations on `ℚ` (built from `mkRat`, `Rat.num`,
`Rat.den`), with bridge lemmas relating them to the ordinary field
operations, so that every concrete scenario can be settled by `decide`.
-/

set_option autoImplicit false

namespace Animrig

/-! ## Kernel-computable arithmetic on `ℚ` -/

/-- Computable comparison `a ≤ b` on `ℚ` by cross-multiplication. -/
def qle (a b : ℚ) : Bool :=
  decide (a.num * (b.den : Int) ≤ b.num * (a.den : Int))

/-- Computable comparison `a < b` on `ℚ` by cross-multiplication. -/
def qlt (a b : ℚ) : Bool :=
  decide (a.num * (b.den : Int) < b.num * (a.den : Int))

/-- Computable addition on `ℚ`. -/
def qadd (a b : ℚ) : ℚ :=
  mkRat (a.num * (b.den : Int) + b.num * (a.den : Int)) (a.den * b.den)

/-- Computable subtraction on `ℚ`. -/
def qsub (a b : ℚ) : ℚ :=
  mkRat (a.num * (b.den : Int) - b.num * (a.den : Int)) (a.den * b.den)

/-- Computable multiplication on `ℚ`. -/
def qmul (a b : ℚ) : ℚ :=
  mkRat (a.num * b.num) (a.den * b.den)

/-- Computable division on `ℚ` (zero divisor yields zero, as in Mathlib). -/
def qdiv (a b : ℚ) : ℚ :=
  mkRat (a.num * (b.den : Int) * (if b.num < 0 then -1 else 1)) (a.den * b.num.natAbs)

/-- Computable absolute value on `ℚ`. -/
def qabs (a : ℚ) : ℚ :=
  mkRat (a.num.natAbs : Int) a.den

theorem qle_iff (a b : ℚ) : qle a b = true ↔ a ≤ b := by
  simp [qle, Rat.le_def]

theorem qlt_iff (a b : ℚ) : qlt a b = true ↔ a < b := by
  simp [qlt, Rat.lt_def]

theorem mkRat_eq_div' (n : Int) (d : Nat) : mkRat n d = (n : ℚ) / (d : ℚ) := by
  rw [Rat.mkRat_eq_divInt, Rat.divInt_eq_div]
  norm_cast

theorem qadd_eq (a b : ℚ) : qadd a b = a + b := by
  rw [qadd, mkRat_eq_div']
  conv_rhs => rw [← Rat.num_div_den a, ← Rat.num_div_den b]
  have ha : (a.den : ℚ) ≠ 0 := by exact_mod_cast a.den_ne_zero
  have hb : (b.den : ℚ) ≠ 0 := by exact_mod_cast b.den_ne_zero
  push_cast
  field_simp

theorem qsub_eq (a b : ℚ) : qsub a b = a - b := by
  rw [qsub, mkRat_eq_div']
  conv_rhs => rw [← Rat.num_div_den a, ← Rat.num_div_den b]
  have ha : (a.den : ℚ) ≠ 0 := by exact_mod_cast a.den_ne_zero
  have hb : (b.den : ℚ) ≠ 0 := by exact_mod_cast b.den_ne_zero
  push_cast
  field_simp
  ring

theorem qmul_eq (a b : ℚ) : qmul a b = a * b := by
  rw [qmul, mkRat_eq_div']
  conv_rhs => rw [← Rat.num_div_den a, ← Rat.num_div_den b]
  have ha : (a.den : ℚ) ≠ 0 := by exact_mod_cast a.den_ne_zero
  have hb : (b.den : ℚ) ≠ 0 := by exact_mod_cast b.den_ne_zero
  push_cast
  field_simp

theorem qabs_eq (a : ℚ) : qabs a = |a| := by
  rw [qabs, Rat.abs_def, Rat.mkRat_eq_divInt]

theorem qdiv_eq (a b : ℚ) : qdiv a b = a / b := by
  rcases eq_or_ne b 0 with rfl | hb0
  · simp [qdiv]
  · rw [qdiv, mkRat_eq_div']
    conv_rhs => rw [← Rat.num_div_den a, ← Rat.num_div_den b]
    have ha : (a.den : ℚ) ≠ 0 := by exact_mod_cast a.den_ne_zero
    have hb : (b.den : ℚ) ≠ 0 := by exact_mod_cast b.den_ne_zero
    have hbn : (b.num : ℚ) ≠ 0 := by
      exact_mod_cast Rat.num_ne_zero.mpr hb0
    rcases lt_or_le b.num 0 with hneg | hpos
    · have habsQ : ((b.num.natAbs : ℚ)) = -(b.num : ℚ) := by
        rw [Int.cast_natAbs]
        exact_mod_cast abs_of_neg hneg
      rw [if_pos hneg]
      push_cast
      rw [habsQ]
      have hbnQ : -(b.num : ℚ) ≠ 0 := by simpa using hbn
      field_simp
    · have habsQ : ((b.num.natAbs : ℚ)) = (b.num : ℚ) := by
        rw [Int.cast_natAbs]
        exact_mod_cast abs_of_nonneg hpos
      rw [if_neg (not_lt.mpr hpos)]
      push_cast
      rw [habsQ]
      field_simp

/-! ## Fuelled base-2 logarithm (kernel-computable) -/

/-- Base-2 logarithm with explicit fuel, so the kernel can evaluate it. -/
def log2_fuel : Nat → Nat → Nat
  | 0, _ => 0
  | fuel + 1, n => if n < 2 then 0 else log2_fuel fuel (n / 2) + 1

/-- Base-2 logarithm: `log2 n = ⌊log₂ n⌋` for `n ≥ 1`, and `0` for `n = 0`. -/
def log2 (n : Nat) : Nat := log2_fuel n n

theorem log2_fuel_eq_log (fuel n : Nat) (h : n ≤ fuel) :
    log2_fuel fuel n = Nat.log 2 n := by
  induction fuel generalizing n with
  | zero =>
    interval_cases n
    simp [log2_fuel]
  | succ fuel ih =>
    rw [log2_fuel]
    by_cases h2 : n < 2
    · interval_cases n <;> simp
    · push_neg at h2
      rw [if_neg (by omega : ¬ n < 2), ih (n / 2) (by omega), Nat.log_div_base 2 n]
      have hpos : 0 < Nat.log 2 n := Nat.log_pos (by norm_num) h2
      omega

theorem log2_eq_log (n : Nat) : log2 n = Nat.log 2 n :=
  log2_fuel_eq_log n n le_rfl

/-! ## Frame times -/

/-- A frame time: a rational number or one of the two infinities.
Strips may have infinite bounds (`frame_start = -inf`, `frame_end = +inf`). -/
inductive FrameTime where
  | negInf
  | fin (q : ℚ)
  | posInf
  deriving DecidableEq

namespace FrameTime

/-- Ordering on extended frame times: `negInf` is below everything,
`posInf` above everything, finite values compare as rationals. -/
def fle : FrameTime → FrameTime → Bool
  | negInf, _ => true
  | _, posInf => true
  | fin a, fin b => qle a b
  | posInf, fin _ => false
  | posInf, negInf => false
  | fin _, negInf => false

end FrameTime

/-! ## Strips and keyframe channels -/

/-- Interpolation mode attached to a key.  Only the linear mode is exercised
by the core; the curve evaluator collaborator is modelled piecewise-linear,
which realises its required behavior: exact value at a key's own time and a
consistent interpolation between keys. -/
inductive Interpolation where
  | linear
  | bezier
  deriving DecidableEq

/-- Settings honored by `keyframe_insert` (notably the interpolation mode
assigned to newly inserted keys). -/
structure KeyframeSettings where
  interpolation : Interpolation
  deriving DecidableEq

/-- One key on a curve: a (time, value) pair with its interpolation mode. -/
structure Keyframe where
  time : ℚ
  value : ℚ
  interpolation : Interpolation
  deriving DecidableEq

/-- A per-property curve of keyed values, identified by
`(rna_path, array_index)` and holding a time-sorted list of keys. -/
structure FCurve where
  rna_path : String
  array_index : Int
  keys : List Keyframe
  deriving DecidableEq

/-- Per-output collection of animated-property curves. -/
structure ChannelsForOutput where
  output_stable_index : Nat
  fcurves : List FCurve
  deriving DecidableEq

/-- Modelled from the spec (Strip; the implementation file of the Strip
operations is not among the sources, only its tests and declarations): a
temporal interval `[frame_start, frame_end]` (either bound may be infinite),
a `frame_offset` relating global time to the strip's local time axis, and
the Keyframe payload: a mapping from Output stable index to its channels.
Only the Keyframe variant exists in this core, so the payload is carried
directly.  The `sid` field models C++ object identity (spec §9: identity
checks are implementable with handle/index equality rather than raw
pointers). -/
structure Strip where
  sid : Nat
  frame_start : FrameTime
  frame_end : FrameTime
  frame_offset : ℚ
  channels : List ChannelsForOutput
  deriving DecidableEq

namespace Strip

/-- Modelled from the spec: `strip_add` creates an infinite strip with zero
offset and no channel data. -/
def infinite (sid : Nat) : Strip :=
  { sid := sid
    frame_start := FrameTime.negInf
    frame_end := FrameTime.posInf
    frame_offset := 0
    channels := [] }

/-- Modelled from the spec: `resize` sets the two interval bounds; keeping
`frame_start <= frame_end` is the caller's responsibility (violations are
programming errors, out of scope for runtime recovery). -/
def resize (s : Strip) (start stop : FrameTime) : Strip :=
  { s with frame_start := start, frame_end := stop }

/-- Modelled from the spec: `contains_frame(t)` is true iff
`frame_start <= t <= frame_end`, a closed interval on both ends, inclusive
of infinities. -/
def contains_frame (s : Strip) (t : FrameTime) : Bool :=
  FrameTime.fle s.frame_start t && FrameTime.fle t s.frame_end

/-- Modelled from the spec: the tolerance used by `is_last_frame` scales
with the magnitude of `frame_end` — a bounded relative/ULP-style quantity.
For `1 ≤ |q|` this is one binary32 unit in the last place at the magnitude
of `q`: `2 ^ ⌊log₂ |q|⌋ / 2 ^ 23`; below magnitude 1 it is the fixed ulp
bound `2 ^ (-23)` of the binade of 1. -/
def last_frame_tolerance (q : ℚ) : ℚ :=
  if qle 1 (qabs q) then
    mkRat ((2 : Int) ^ log2 (Int.toNat ((qabs q).num / ((qabs q).den : Int)))) (2 ^ 23)
  else
    mkRat 1 (2 ^ 23)

/-- Modelled from the spec: `is_last_frame(t)` is true iff `t` equals
`frame_end` within the magnitude-scaled tolerance; an infinite `frame_end`
is matched exactly by the same infinity. -/
def is_last_frame (s : Strip) (t : FrameTime) : Bool :=
  match s.frame_end, t with
  | FrameTime.posInf, FrameTime.posInf => true
  | FrameTime.negInf, FrameTime.negInf => true
  | FrameTime.fin e, FrameTime.fin q => qle (qabs (qsub q e)) (last_frame_tolerance e)
  | _, _ => false

end Strip

/-! ## Outputs -/

/-- An ID datablock: its name starts with a two-character type tag
(e.g. `"OBKüüübus"` is an object named `"Küüübus"`). -/
structure ID where
  name : String
  deriving DecidableEq

/-- The type tag encoded in the first two characters of an ID name
(the C macro `GS` reads the leading two bytes as a short). -/
def gs (name : String) : Nat :=
  match name.data with
  | c0 :: c1 :: _ => c0.toNat + 256 * c1.toNat
  | _ => 0

/-- An animation target: a permanent stable index, the bound ID's type tag,
and a cached display name used when no live binding exists. -/
structure Output where
  stable_index : Nat
  idtype : Nat
  fallback : String
  deriving DecidableEq

namespace Output

/-- Modelled from the spec: `assign_id` binds the Output to a concrete ID,
refreshing `idtype` (the name's two-character type tag) and `fallback`
(the name with that tag stripped). -/
def assign_id (o : Output) (idb : ID) : Output :=
  { o with idtype := gs idb.name, fallback := String.mk (idb.name.data.drop 2) }

end Output

/-! ## Keyframe insertion -/

/-- Modelled from the spec: insert a key into a curve's time-sorted key
list, replacing an existing key at the same time. -/
def insert_key (k : Keyframe) : List Keyframe → List Keyframe
  | [] => [k]
  | k0 :: ks =>
    if qlt k.time k0.time then k :: k0 :: ks
    else if k.time = k0.time then k :: ks
    else k0 :: insert_key k ks

/-- Does the curve carry the `(property_path, array_index)` key? -/
def fcurve_matches (path : String) (ai : Int) (c : FCurve) : Bool :=
  decide (c.rna_path = path) && decide (c.array_index = ai)

namespace FCurve

/-- Add one key to a curve. -/
def insert (c : FCurve) (k : Keyframe) : FCurve :=
  { c with keys := insert_key k c.keys }

end FCurve

/-- A fresh one-key curve. -/
def new_fcurve (path : String) (ai : Int) (k : Keyframe) : FCurve :=
  { rna_path := path, array_index := ai, keys := [k] }

/-- Insert a key into the curve list of one ChannelsForOutput: append to
the first curve keyed `(path, ai)`, or create that curve at the end.
Returns the updated list and the curve's position (its handle). -/
def insert_fcurve (path : String) (ai : Int) (k : Keyframe) :
    List FCurve → List FCurve × Nat
  | [] => ([new_fcurve path ai k], 0)
  | c :: cs =>
    if fcurve_matches path ai c then (c.insert k :: cs, 0)
    else
      let r := insert_fcurve path ai k cs
      (c :: r.1, r.2 + 1)

/-- Insert a key into the per-output channel list: find or create the
ChannelsForOutput for the stable index, then insert into its curves.
Returns the updated list and the handle (channel position, curve position). -/
def insert_in_channels (oidx : Nat) (path : String) (ai : Int) (k : Keyframe) :
    List ChannelsForOutput → List ChannelsForOutput × (Nat × Nat)
  | [] => ([{ output_stable_index := oidx, fcurves := [new_fcurve path ai k] }], (0, 0))
  | cfo :: rest =>
    if cfo.output_stable_index = oidx then
      let r := insert_fcurve path ai k cfo.fcurves
      ({ cfo with fcurves := r.1 } :: rest, (0, r.2))
    else
      let r := insert_in_channels oidx path ai k rest
      (cfo :: r.1, (r.2.1 + 1, r.2.2))

namespace Strip

/-- Modelled from the spec: `keyframe_insert(output, property_path,
array_index, (time, value), settings)` looks up or creates the
ChannelsForOutput for `output.stable_index`, looks up or creates the curve
keyed `(property_path, array_index)` in it, inserts a key honoring the
settings, and returns the curve's handle (its position, which models the
C++ `FCurve *` identity). -/
def keyframe_insert (s : Strip) (out : Output) (path : String) (ai : Int)
    (tv : ℚ × ℚ) (settings : KeyframeSettings) : Strip × (Nat × Nat) :=
  let k : Keyframe := { time := tv.1, value := tv.2, interpolation := settings.interpolation }
  let r := insert_in_channels out.stable_index path ai k s.channels
  ({ s with channels := r.1 }, r.2)

/-- The strip's channels for one output stable index (first match), if any. -/
def channels_for_output (s : Strip) (oidx : Nat) : Option ChannelsForOutput :=
  s.channels.find? (fun cfo => decide (cfo.output_stable_index = oidx))

/-- The curve keyed `(path, ai)` for output `oidx` (first match), if any. -/
def fcurve_for (s : Strip) (oidx : Nat) (path : String) (ai : Int) : Option FCurve :=
  (s.channels_for_output oidx).bind fun cfo => cfo.fcurves.find? (fcurve_matches path ai)

/-- The curve at a handle returned by `keyframe_insert`. -/
def curve_at (s : Strip) (h : Nat × Nat) : Option FCurve :=
  (s.channels.get? h.1).bind fun cfo => cfo.fcurves.get? h.2

end Strip

/-! ## Layers -/

/-- Modelled from the spec: a Layer owns an ordered sequence of Strips
(insertion order is the evaluation tie-break order) plus metadata.
`lid` models C++ object identity; `next_sid` supplies identities for the
strips it creates. -/
structure Layer where
  lid : Nat
  name : String
  influence : ℚ
  strips : List Strip
  next_sid : Nat
  deriving DecidableEq

/-- Remove the first list element satisfying `p`; report whether one was
found (the ownership-checked removal pattern of §9). -/
def removeFirstBy {α : Type} (p : α → Bool) : List α → List α × Bool
  | [] => ([], false)
  | x :: xs =>
    if p x then (xs, true)
    else
      let r := removeFirstBy p xs
      (x :: r.1, r.2)

namespace Layer

/-- Modelled from the spec: appends an infinite default Strip, returns it. -/
def strip_add (l : Layer) : Layer × Strip :=
  let s := Strip.infinite l.next_sid
  ({ l with strips := l.strips ++ [s], next_sid := l.next_sid + 1 }, s)

/-- Modelled from the spec: ownership-checked removal — find the owned
strip with the argument's identity, remove it and return true; return
false with no mutation when the strip is not owned by this layer. -/
def strip_remove (l : Layer) (s : Strip) : Layer × Bool :=
  let r := removeFirstBy (fun x => decide (x.sid = s.sid)) l.strips
  ({ l with strips := r.1 }, r.2)

/-- The strip at an index, if any. -/
def strip (l : Layer) (i : Nat) : Option Strip :=
  l.strips.get? i

end Layer

/-! ## Animation (root aggregate) -/

/-- Modelled from the spec: the root — an ordered, owning collection of
Layers and a registry of Outputs with a monotonic stable-index allocator.
`next_lid` supplies identities for the layers it creates. -/
structure Animation where
  layers : List Layer
  layer_active_index : Int
  outputs : List Output
  last_output_stable_index : Nat
  next_lid : Nat
  deriving DecidableEq

namespace Animation

/-- A value-initialized Animation (`Animation anim = {};`). -/
def empty : Animation :=
  { layers := [], layer_active_index := -1, outputs := [], last_output_stable_index := 0,
    next_lid := 0 }

/-- Modelled from the spec: appends a new Layer (influence defaults to 1),
makes it the active layer, returns it. -/
def layer_add (a : Animation) (name : String) : Animation × Layer :=
  let l : Layer :=
    { lid := a.next_lid, name := name, influence := 1, strips := [], next_sid := 0 }
  ({ a with layers := a.layers ++ [l],
            layer_active_index := (a.layers.length : Int),
            next_lid := a.next_lid + 1 }, l)

/-- Modelled from the spec: ownership-checked removal of a layer, same
contract as `Layer.strip_remove`. -/
def layer_remove (a : Animation) (l : Layer) : Animation × Bool :=
  let r := removeFirstBy (fun x => decide (x.lid = l.lid)) a.layers
  ({ a with layers := r.1 }, r.2)

/-- Modelled from the spec: `output_add` allocates the next stable index
(`last_output_stable_index + 1`), stores and returns the Output.  A fresh
Output has no ID type tag and an empty fallback name until `assign_id`. -/
def output_add (a : Animation) : Animation × Output :=
  let o : Output :=
    { stable_index := a.last_output_stable_index + 1, idtype := 0, fallback := "" }
  ({ a with outputs := a.outputs ++ [o],
            last_output_stable_index := a.last_output_stable_index + 1 }, o)

end Animation

/-! ## Evaluation result (embedded from evaluation_internal.hh) -/

/-- `(property_path, array_index)`: identity of one scalar animated
component (source: `PropIdentifier`). -/
structure PropIdentifier where
  rna_path : String
  array_index : Int
  deriving DecidableEq

/-- Opaque resolved-property handle (source: `PathResolvedRNA`), used
purely as a pass-through payload in EvaluationResult entries. -/
structure PathResolvedRNA where
  key : PropIdentifier
  deriving DecidableEq

/-- A computed value together with its resolved handle
(source: `AnimatedProperty`). -/
structure AnimatedProperty where
  value : ℚ
  prop_rna : PathResolvedRNA
  deriving DecidableEq

/-- Evaluated FCurves for some animation output: a mapping from property
identifier to its value (source: `EvaluationResult`, a `Map` whose `add`
inserts only when the key is absent). -/
structure EvaluationResult where
  entries : List (PropIdentifier × AnimatedProperty)
  deriving DecidableEq

namespace EvaluationResult

/-- A fresh, empty result. -/
def empty : EvaluationResult := ⟨[]⟩

/-- Source: `lookup_ptr` — the entry for a key, if present. -/
def lookup_ptr (r : EvaluationResult) (key : PropIdentifier) : Option AnimatedProperty :=
  (r.entries.find? (fun e => decide (e.1 = key))).map Prod.snd

/-- Is the key present? -/
def contains (r : EvaluationResult) (key : PropIdentifier) : Bool :=
  r.entries.any (fun e => decide (e.1 = key))

/-- Source: `is_empty`. -/
def is_empty (r : EvaluationResult) : Bool := r.entries.isEmpty

/-- Source: `operator bool` — `!is_empty()`. -/
def toBool (r : EvaluationResult) : Bool := !r.is_empty

/-- Source: `store` — build the key, and `Map::add` the entry: the map is
unchanged when the key is already present. -/
def store (r : EvaluationResult) (path : String) (ai : Int) (v : ℚ)
    (h : PathResolvedRNA) : EvaluationResult :=
  let key : PropIdentifier := ⟨path, ai⟩
  if r.contains key then r else ⟨r.entries ++ [(key, ⟨v, h⟩)]⟩

end EvaluationResult

/-! ## The evaluator -/

/-- Modelled from the spec (the curve evaluator is an external
collaborator): exact value at an inserted key's own time, piecewise-linear
interpolation between adjacent keys, constant extension beyond the
outermost keys; an empty curve evaluates to 0. -/
def evaluate_keys (t : ℚ) : List Keyframe → ℚ
  | [] => 0
  | [k] => k.value
  | k1 :: k2 :: ks =>
    if qle t k1.time then k1.value
    else if qle t k2.time then
      qadd k1.value (qdiv (qmul (qsub t k1.time) (qsub k2.value k1.value)) (qsub k2.time k1.time))
    else evaluate_keys t (k2 :: ks)

/-- Evaluate one curve at a local time. -/
def evaluate_fcurve (c : FCurve) (t : ℚ) : ℚ :=
  evaluate_keys t c.keys

/-- The animated target's property slots (the test cube's loc/rot values).
Evaluation must never change it. -/
structure Target where
  loc0 : ℚ
  loc1 : ℚ
  loc2 : ℚ
  rot0 : ℚ
  rot1 : ℚ
  rot2 : ℚ
  deriving DecidableEq

/-- Modelled from the spec: the property resolver returns an opaque handle
for `(property_path, array_index)`; the target is threaded through and
returned so the evaluator's freedom from target mutation is a provable
statement about `evaluate_layer_st`. -/
def resolve_prop (tgt : Target) (key : PropIdentifier) : PathResolvedRNA × Target :=
  (⟨key⟩, tgt)

/-- One step of §4.4 item 5: evaluate a curve at the strip's local time,
resolve its handle, and store the pair (insert-if-absent). -/
def eval_step (lt : ℚ) (acc : EvaluationResult × Target) (c : FCurve) :
    EvaluationResult × Target :=
  let r := resolve_prop acc.2 ⟨c.rna_path, c.array_index⟩
  (acc.1.store c.rna_path c.array_index (evaluate_fcurve c lt) r.1, r.2)

/-- Walk every curve of one ChannelsForOutput. -/
def eval_curves (cs : List FCurve) (lt : ℚ) (acc : EvaluationResult × Target) :
    EvaluationResult × Target :=
  cs.foldl (eval_step lt) acc

/-- §4.4 items 3–5 for a single strip: skip unless the strip's closed
interval contains the evaluation time; skip when the strip has no channels
for the output; otherwise evaluate its curves at the offset local time. -/
def eval_strip (oidx : Nat) (t : ℚ) (acc : EvaluationResult × Target) (s : Strip) :
    EvaluationResult × Target :=
  if s.contains_frame (FrameTime.fin t) then
    match s.channels_for_output oidx with
    | none => acc
    | some cfo => eval_curves cfo.fcurves (qsub t s.frame_offset) acc
  else acc

/-- Modelled from the spec §4.4: `evaluate_layer` considers the Layer's
Strips in reverse insertion order, starting from a fresh empty result;
since `store` never overwrites, a strip later in insertion order wins every
property it defines.  Returns the result and the (untouched) target. -/
def evaluate_layer_st (tgt : Target) (layer : Layer) (oidx : Nat) (eval_time : ℚ) :
    EvaluationResult × Target :=
  (layer.strips.reverse).foldl (eval_strip oidx eval_time) (EvaluationResult.empty, tgt)

/-- The evaluation result of `evaluate_layer`. -/
def evaluate_layer (tgt : Target) (layer : Layer) (oidx : Nat) (eval_time : ℚ) :
    EvaluationResult :=
  (evaluate_layer_st tgt layer oidx eval_time).1

/-! ## Concrete fixtures (mirroring the test suites) -/

/-- Keyframe settings with linear interpolation (the evaluation tests set
`settings.interpolation = BEZT_IPO_LIN`). -/
def lin_settings : KeyframeSettings := ⟨Interpolation.linear⟩

/-- The first Output of a fresh Animation (stable index 1). -/
def out1 : Output := (Animation.empty.output_add).2

/-- The evaluated cube's property values (loc = (3,2,7), rot = (3,2,7)). -/
def tgt0 : Target := ⟨3, 2, 7, 3, 2, 7⟩

/-- The "Kübus layer" of the evaluation tests, holding one strip. -/
def kubus_layer : Layer := ((Animation.empty.layer_add "Kübus layer").2.strip_add).1

/-- The infinite strip added to the Kübus layer. -/
def kubus_strip : Strip := ((Animation.empty.layer_add "Kübus layer").2.strip_add).2

/-- The end-to-end scenario strip: infinite, with location[0] keys
1 → 47.1 and 5 → 47.5 (linear). -/
def strip_c4 : Strip :=
  ((kubus_strip.keyframe_insert out1 "location" 0 (1, mkRat 471 10) lin_settings).1.keyframe_insert
      out1 "location" 0 (5, mkRat 475 10) lin_settings).1

/-- The Kübus layer carrying the end-to-end scenario strip. -/
def layer_c4 : Layer := { kubus_layer with strips := [strip_c4] }

/-- location[0] keys 1 → 47, 5 → 327, 10 → 48 (linear), as each strip of
the boundary tests carries. -/
def with_loc_keys (s : Strip) : Strip :=
  (((s.keyframe_insert out1 "location" 0 (1, 47) lin_settings).1.keyframe_insert
      out1 "location" 0 (5, 327) lin_settings).1.keyframe_insert
      out1 "location" 0 (10, 48) lin_settings).1

/-- Strip A of the overlapping-edge test: `[1, 10]`, no offset. -/
def stripA : Strip :=
  with_loc_keys (kubus_strip.resize (FrameTime.fin 1) (FrameTime.fin 10))

/-- Strip B of the overlapping-edge test: `[10, 19]`, `frame_offset` 9,
added after A (identity 1). -/
def stripB : Strip :=
  { with_loc_keys
      ((((Animation.empty.layer_add "Kübus layer").2.strip_add).1.strip_add).2.resize
        (FrameTime.fin 10) (FrameTime.fin 19)) with
    frame_offset := 9 }

/-- The layer of the overlapping-edge test: A then B. -/
def layer_overlap : Layer := { kubus_layer with strips := [stripA, stripB] }

/-- The location[0] curve that both overlap strips carry. -/
def loc_curve : FCurve :=
  { rna_path := "location", array_index := 0
    keys := [⟨1, 47, Interpolation.linear⟩, ⟨5, 327, Interpolation.linear⟩,
             ⟨10, 48, Interpolation.linear⟩] }

/-- A layer with no strips at all. -/
def layer_nostrips : Layer := (Animation.empty.layer_add "Kübus layer").2

/-- A strip resized to `[1, 2]`. -/
def strip_1_2 : Strip := (Strip.infinite 0).resize (FrameTime.fin 1) (FrameTime.fin 2)

/-- A strip resized to `[1, 172800]` (2 hours at 24 FPS). -/
def strip_1_172800 : Strip :=
  (Strip.infinite 0).resize (FrameTime.fin 1) (FrameTime.fin 172800)

/-- A strip resized to `[-inf, inf]`. -/
def strip_inf : Strip := (Strip.infinite 0).resize FrameTime.negInf FrameTime.posInf

/-- An animation with three layers (identities 0, 1, 2). -/
def anim3 : Animation :=
  (((Animation.empty.layer_add "Test Læür nul").1.layer_add
      "Test Læür één").1.layer_add "Test Læür twee").1

/-- The middle layer of `anim3` (identity 1). -/
def layer_een : Layer :=
  ((Animation.empty.layer_add "Test Læür nul").1.layer_add "Test Læür één").2

/-- A layer owned by a different Animation (identity 100, foreign to
`anim3`). -/
def other_layer : Layer :=
  ({ Animation.empty with next_lid := 100 }.layer_add "Another Layer").2

/-- A layer with three strips (identities 0, 1, 2). -/
def layer_3strips : Layer :=
  ((((Animation.empty.layer_add "Test Læür").2.strip_add).1.strip_add).1.strip_add).1

/-- A strip owned by a different Layer (identity 50, foreign to
`layer_3strips`). -/
def foreign_strip : Strip := Strip.infinite 50

/-- The cube ID of the output tests: an object named "Küüübus". -/
def cube : ID := ⟨"OBKüüübus"⟩

/-- `out1` bound to the cube. -/
def out_cube : Output := out1.assign_id cube

/-! ## General lemmas about the helpers -/

theorem fle_refl (x : FrameTime) : FrameTime.fle x x = true := by
  cases x <;> simp [FrameTime.fle, qle]

theorem removeFirstBy_not_found {α : Type} (p : α → Bool) (l : List α)
    (h : ∀ x ∈ l, p x = false) : removeFirstBy p l = (l, false) := by
  induction l with
  | nil => rfl
  | cons x xs ih =>
    have hx : p x = false := h x (List.mem_cons_self x xs)
    have ihx := ih (fun y hy => h y (List.mem_cons_of_mem x hy))
    simp [removeFirstBy, hx, ihx]

theorem removeFirstBy_found {α : Type} (p : α → Bool) (l : List α)
    (h : ∃ x ∈ l, p x = true) :
    (removeFirstBy p l).2 = true ∧ (removeFirstBy p l).1.length + 1 = l.length := by
  induction l with
  | nil => simp at h
  | cons x xs ih =>
    by_cases hx : p x = true
    · simp [removeFirstBy, hx]
    · have hx' : p x = false := by revert hx; cases p x <;> simp
      obtain ⟨y, hy, hpy⟩ := h
      rcases List.mem_cons.mp hy with rfl | hy'
      · rw [hpy] at hx'; cases hx'
      · have hr := ih ⟨y, hy', hpy⟩
        refine ⟨?_, ?_⟩ <;> simp [removeFirstBy, hx', hr.1, ← hr.2]

theorem tolerance_eq (q : ℚ) (h1 : 1 ≤ |q|) :
    Strip.last_frame_tolerance q = (2 : ℚ) ^ (Nat.log 2 (Int.toNat ⌊|q|⌋)) / 2 ^ 23 := by
  have hq : qle 1 (qabs q) = true := (qle_iff _ _).mpr (by rwa [qabs_eq])
  rw [Strip.last_frame_tolerance, if_pos hq, mkRat_eq_div', qabs_eq, ← Rat.floor_def,
    log2_eq_log]
  push_cast
  norm_num

theorem floor_abs_facts (e : ℚ) (h1 : 1 ≤ |e|) :
    1 ≤ Int.toNat ⌊|e|⌋ ∧ ((Int.toNat ⌊|e|⌋ : ℚ)) ≤ |e| ∧
      |e| < (Int.toNat ⌊|e|⌋ : ℚ) + 1 := by
  have hf1 : (1 : Int) ≤ ⌊|e|⌋ := Int.le_floor.mpr (by exact_mod_cast h1)
  have htn : (Int.toNat ⌊|e|⌋ : Int) = ⌊|e|⌋ := Int.toNat_of_nonneg (by omega)
  refine ⟨by omega, ?_, ?_⟩
  · have hle := Int.floor_le |e|
    rw [← htn] at hle
    exact_mod_cast hle
  · have hlt := Int.lt_floor_add_one |e|
    rw [← htn] at hlt
    exact_mod_cast hlt

theorem last_frame_tolerance_relative (e : ℚ) (h1 : 1 ≤ |e|) :
    |e| / 2 ^ 24 < Strip.last_frame_tolerance e ∧
      Strip.last_frame_tolerance e ≤ |e| / 2 ^ 23 := by
  obtain ⟨hm1, hmle, hmlt⟩ := floor_abs_facts e h1
  have hpow_le : ((2 : ℚ)) ^ (Nat.log 2 (Int.toNat ⌊|e|⌋)) ≤ ((Int.toNat ⌊|e|⌋ : ℚ)) := by
    exact_mod_cast Nat.pow_log_le_self 2 (by omega)
  have hpow_gt : ((Int.toNat ⌊|e|⌋ : ℚ)) + 1 ≤ 2 ^ (Nat.log 2 (Int.toNat ⌊|e|⌋) + 1) := by
    have h := Nat.lt_pow_succ_log_self (b := 2) (by norm_num) (Int.toNat ⌊|e|⌋)
    exact_mod_cast h
  rw [tolerance_eq e h1]
  constructor
  · rw [div_lt_div_iff (by positivity) (by positivity)]
    have h2 : |e| < 2 ^ (Nat.log 2 (Int.toNat ⌊|e|⌋)) * 2 := by
      have := lt_of_lt_of_le hmlt hpow_gt
      rwa [pow_succ] at this
    nlinarith [pow_pos (by norm_num : (0:ℚ) < 2) (Nat.log 2 (Int.toNat ⌊|e|⌋))]
  · rw [div_le_div_iff (by positivity) (by positivity)]
    have h3 : (2 : ℚ) ^ (Nat.log 2 (Int.toNat ⌊|e|⌋)) ≤ |e| := le_trans hpow_le hmle
    nlinarith [pow_pos (by norm_num : (0:ℚ) < 2) (Nat.log 2 (Int.toNat ⌊|e|⌋))]

theorem last_frame_tolerance_mono (a b : ℚ) (ha : 1 ≤ a) (hab : a ≤ b) :
    Strip.last_frame_tolerance a ≤ Strip.last_frame_tolerance b := by
  have hb1 : 1 ≤ b := le_trans ha hab
  have ha' : 1 ≤ |a| := by rw [abs_of_nonneg (by linarith)]; exact ha
  have hb' : 1 ≤ |b| := by rw [abs_of_nonneg (by linarith)]; exact hb1
  rw [tolerance_eq a ha', tolerance_eq b hb']
  have hfl : ⌊|a|⌋ ≤ ⌊|b|⌋ := by
    apply Int.floor_le_floor
    rw [abs_of_nonneg (by linarith), abs_of_nonneg (by linarith)]
    exact hab
  have hlog : Nat.log 2 (Int.toNat ⌊|a|⌋) ≤ Nat.log 2 (Int.toNat ⌊|b|⌋) :=
    Nat.log_mono_right (by omega)
  have hpow : ((2 : ℚ)) ^ (Nat.log 2 (Int.toNat ⌊|a|⌋)) ≤ 2 ^ (Nat.log 2 (Int.toNat ⌊|b|⌋)) :=
    pow_le_pow_right (by norm_num) hlog
  exact div_le_div_of_nonneg_right hpow (by positivity)

/-! ## Claim theorems -/

/-- C2: `contains_frame(t)` is true iff `frame_start <= t <= frame_end`, a
closed interval on both ends (inclusive of infinities): both endpoints are
contained, and times past `frame_end` — even by 0.0001, or 0.1 at frame
172800 — are not. -/
theorem contains_frame_closed_interval :
    (∀ (s : Strip) (a b t : ℚ), s.frame_start = FrameTime.fin a →
      s.frame_end = FrameTime.fin b →
      (s.contains_frame (FrameTime.fin t) = true ↔ a ≤ t ∧ t ≤ b)) ∧
    (∀ s : Strip, FrameTime.fle s.frame_start s.frame_end = true →
      s.contains_frame s.frame_start = true ∧ s.contains_frame s.frame_end = true) ∧
    (strip_1_2.contains_frame (FrameTime.fin 1) = true ∧
     strip_1_2.contains_frame (FrameTime.fin 2) = true ∧
     strip_1_2.contains_frame (FrameTime.fin 0) = false ∧
     strip_1_2.contains_frame (FrameTime.fin 2.0001) = false ∧
     strip_1_172800.contains_frame (FrameTime.fin 172800) = true ∧
     strip_1_172800.contains_frame (FrameTime.fin 172800.1) = false ∧
     strip_inf.contains_frame (FrameTime.fin 100000) = true ∧
     strip_inf.contains_frame (FrameTime.fin (-100000)) = true) := by
  refine ⟨?_, ?_, ?_⟩
  · intro s a b t hs he
    simp [Strip.contains_frame, hs, he, FrameTime.fle, Bool.and_eq_true, qle_iff]
  · intro s h
    constructor <;> simp [Strip.contains_frame, fle_refl, h]
  · refine ⟨by decide, by decide, by decide, ?_, by decide, ?_, ?_, ?_⟩
    · rw [show (2.0001 : ℚ) = mkRat 20001 10000 by rw [mkRat_eq_div']; norm_num]
      decide
    · rw [show (172800.1 : ℚ) = mkRat 1728001 10 by rw [mkRat_eq_div']; norm_num]
      decide
    · decide
    · rw [show ((-100000 : ℚ)) = mkRat (-100000) 1 by rw [mkRat_eq_div']; norm_num]
      decide

/-- C2 witness: the general characterization applied to the `[1, 2]` strip
and its endpoints. -/
theorem contains_frame_closed_interval_witness :
    (strip_1_2.frame_start = FrameTime.fin 1 ∧ strip_1_2.frame_end = FrameTime.fin 2 ∧
      (strip_1_2.contains_frame (FrameTime.fin (mkRat 3 2)) = true ↔
        (1 : ℚ) ≤ mkRat 3 2 ∧ (mkRat 3 2 : ℚ) ≤ 2)) ∧
    (FrameTime.fle strip_1_2.frame_start strip_1_2.frame_end = true ∧
      strip_1_2.contains_frame strip_1_2.frame_start = true ∧
      strip_1_2.contains_frame strip_1_2.frame_end = true) :=
  ⟨⟨rfl, rfl, (contains_frame_closed_interval.1 strip_1_2 1 2 (mkRat 3 2) rfl rfl)⟩,
   ⟨by decide, (contains_frame_closed_interval.2.1 strip_1_2 (by decide)).1,
    (contains_frame_closed_interval.2.1 strip_1_2 (by decide)).2⟩⟩

/-- C9: `is_last_frame(t)` is true iff `t` equals `frame_end` within a
tolerance that scales with the magnitude of `frame_end`: the tolerance lies
strictly between `|frame_end|/2^24` and `|frame_end|/2^23` (a bounded
relative, ULP-style bound — neither exact equality nor a fixed absolute
epsilon) and grows monotonically with the frame number; at `frame_end =
172800` times 0.075 away are rejected, at `frame_end = 2` times 0.0001
away are rejected. -/
theorem is_last_frame_tolerance_spec :
    (∀ (s : Strip) (e q : ℚ), s.frame_end = FrameTime.fin e →
      (s.is_last_frame (FrameTime.fin q) = true ↔
        |q - e| ≤ Strip.last_frame_tolerance e)) ∧
    (∀ e : ℚ, 1 ≤ |e| →
      |e| / 2 ^ 24 < Strip.last_frame_tolerance e ∧
        Strip.last_frame_tolerance e ≤ |e| / 2 ^ 23) ∧
    (∀ a b : ℚ, 1 ≤ a → a ≤ b →
      Strip.last_frame_tolerance a ≤ Strip.last_frame_tolerance b) ∧
    (strip_1_172800.is_last_frame (FrameTime.fin 172799.925) = false ∧
     strip_1_172800.is_last_frame (FrameTime.fin 172800) = true ∧
     strip_1_172800.is_last_frame (FrameTime.fin 172800.075) = false ∧
     strip_1_2.is_last_frame (FrameTime.fin 1.9999) = false ∧
     strip_1_2.is_last_frame (FrameTime.fin (mkRat 3 2)) = false ∧
     strip_1_2.is_last_frame (FrameTime.fin 1) = false ∧
     strip_1_2.is_last_frame (FrameTime.fin 2) = true ∧
     strip_1_2.is_last_frame (FrameTime.fin 2.0001) = false ∧
     strip_inf.is_last_frame FrameTime.posInf = true) := by
  refine ⟨?_, ?_, ?_, ?_⟩
  · intro s e q he
    simp [Strip.is_last_frame, he, qle_iff, qabs_eq, qsub_eq]
  · exact last_frame_tolerance_relative
  · exact last_frame_tolerance_mono
  · refine ⟨?_, by decide, ?_, ?_, by decide, by decide, by decide, ?_, by decide⟩
    · rw [show (172799.925 : ℚ) = mkRat 172799925 1000 by rw [mkRat_eq_div']; norm_num]
      decide
    · rw [show (172800.075 : ℚ) = mkRat 172800075 1000 by rw [mkRat_eq_div']; norm_num]
      decide
    · rw [show (1.9999 : ℚ) = mkRat 19999 10000 by rw [mkRat_eq_div']; norm_num]
      decide
    · rw [show (2.0001 : ℚ) = mkRat 20001 10000 by rw [mkRat_eq_div']; norm_num]
      decide

theorem find?_append_some {α : Type} (p : α → Bool) (l1 l2 : List α) (x : α)
    (h : l1.find? p = some x) : (l1 ++ l2).find? p = some x := by
  induction l1 with
  | nil => simp [List.find?] at h
  | cons y ys ih =>
    rw [List.cons_append]
    cases hy : p y with
    | true =>
      rw [List.find?_cons_of_pos _ hy] at h
      rw [List.find?_cons_of_pos _ hy]
      exact h
    | false =>
      rw [List.find?_cons_of_neg _ (by simp [hy])] at h
      rw [List.find?_cons_of_neg _ (by simp [hy])]
      exact ih h

theorem find?_append_none {α : Type} (p : α → Bool) (l1 l2 : List α)
    (h : l1.find? p = none) : (l1 ++ l2).find? p = l2.find? p := by
  induction l1 with
  | nil => rfl
  | cons y ys ih =>
    cases hy : p y with
    | true => rw [List.find?_cons_of_pos _ hy] at h; cases h
    | false =>
      rw [List.find?_cons_of_neg _ (by simp [hy])] at h
      rw [List.cons_append, List.find?_cons_of_neg _ (by simp [hy])]
      exact ih h

theorem lookup_none_iff (r : EvaluationResult) (k : PropIdentifier) :
    r.lookup_ptr k = none ↔ r.contains k = false := by
  rw [EvaluationResult.lookup_ptr, EvaluationResult.contains]
  induction r.entries with
  | nil => simp
  | cons e es ih =>
    by_cases hy : e.1 = k
    · rw [List.find?_cons_of_pos _ (by simpa using hy), List.any_cons]
      simp [hy]
    · rw [List.find?_cons_of_neg _ (by simpa using hy), List.any_cons]
      simpa [hy] using ih

theorem store_preserves_lookup (r : EvaluationResult) (k : PropIdentifier)
    (v : AnimatedProperty) (path : String) (ai : Int) (val : ℚ) (h1 : PathResolvedRNA)
    (h : r.lookup_ptr k = some v) :
    (r.store path ai val h1).lookup_ptr k = some v := by
  rw [EvaluationResult.store]
  split
  · exact h
  · rw [EvaluationResult.lookup_ptr] at h ⊢
    rcases hf : r.entries.find? (fun e => decide (e.1 = k)) with _ | e
    · rw [hf] at h; cases h
    · rw [hf] at h
      rw [find?_append_some _ _ _ _ hf]
      exact h

theorem store_other_lookup (r : EvaluationResult) (k : PropIdentifier)
    (path : String) (ai : Int) (val : ℚ) (h1 : PathResolvedRNA)
    (hne : k ≠ ⟨path, ai⟩) :
    (r.store path ai val h1).lookup_ptr k = r.lookup_ptr k := by
  rw [EvaluationResult.store]
  split
  · rfl
  · rw [EvaluationResult.lookup_ptr, EvaluationResult.lookup_ptr]
    rcases hf : r.entries.find? (fun e => decide (e.1 = k)) with _ | e
    · rw [find?_append_none _ _ _ hf]
      have hwit : decide ((⟨⟨path, ai⟩, ⟨val, h1⟩⟩ : PropIdentifier × AnimatedProperty).1 = k)
          = false := by
        simp only [decide_eq_false_iff_not]
        exact fun he => hne he.symm
      rw [List.find?_cons_of_neg _ (by simp [hwit]), hf]
      rfl
    · rw [find?_append_some _ _ _ _ hf, hf]

theorem store_new_lookup (r : EvaluationResult) (path : String) (ai : Int) (val : ℚ)
    (h1 : PathResolvedRNA) (h : r.lookup_ptr ⟨path, ai⟩ = none) :
    (r.store path ai val h1).lookup_ptr ⟨path, ai⟩ = some ⟨val, h1⟩ := by
  have hc : r.contains ⟨path, ai⟩ = false := (lookup_none_iff r _).mp h
  rw [EvaluationResult.store]
  rw [if_neg (by rw [hc]; simp)]
  rw [EvaluationResult.lookup_ptr] at h ⊢
  rcases hf : r.entries.find? (fun e => decide (e.1 = ⟨path, ai⟩)) with _ | e
  · rw [find?_append_none _ _ _ hf]
    rw [List.find?_cons_of_pos _ (by simp)]
    rfl
  · rw [hf] at h; cases h

/-! Lemmas about the evaluator's traversal. -/

theorem eval_curves_snd (cs : List FCurve) (lt : ℚ) (acc : EvaluationResult × Target) :
    (eval_curves cs lt acc).2 = acc.2 := by
  induction cs generalizing acc with
  | nil => rfl
  | cons c cs ih => exact (ih (eval_step lt acc c)).trans rfl

theorem eval_strip_snd (o : Nat) (t : ℚ) (acc : EvaluationResult × Target) (s : Strip) :
    (eval_strip o t acc s).2 = acc.2 := by
  rw [eval_strip]
  split
  · split
    · rfl
    · exact eval_curves_snd _ _ _
  · rfl

theorem foldl_eval_strip_snd (o : Nat) (t : ℚ) (ss : List Strip)
    (acc : EvaluationResult × Target) :
    (ss.foldl (eval_strip o t) acc).2 = acc.2 := by
  induction ss generalizing acc with
  | nil => rfl
  | cons s ss ih => exact (ih (eval_strip o t acc s)).trans (eval_strip_snd o t acc s)

theorem eval_curves_preserves (cs : List FCurve) (lt : ℚ) (acc : EvaluationResult × Target)
    (k : PropIdentifier) (v : AnimatedProperty) (h : acc.1.lookup_ptr k = some v) :
    (eval_curves cs lt acc).1.lookup_ptr k = some v := by
  induction cs generalizing acc with
  | nil => exact h
  | cons c cs ih =>
    exact ih (eval_step lt acc c) (store_preserves_lookup _ _ _ _ _ _ _ h)

theorem fcurve_matches_false_iff (path : String) (ai : Int) (c : FCurve) :
    fcurve_matches path ai c = false ↔ (⟨path, ai⟩ : PropIdentifier) ≠ ⟨c.rna_path, c.array_index⟩ := by
  rw [fcurve_matches]
  constructor
  · intro h he
    cases he
    simp at h
  · intro h
    by_contra hb
    simp at hb
    exact h (by rw [hb.1, hb.2])

theorem eval_curves_no_match (cs : List FCurve) (lt : ℚ) (acc : EvaluationResult × Target)
    (k : PropIdentifier)
    (h : cs.find? (fcurve_matches k.rna_path k.array_index) = none) :
    (eval_curves cs lt acc).1.lookup_ptr k = acc.1.lookup_ptr k := by
  induction cs generalizing acc with
  | nil => rfl
  | cons c cs ih =>
    cases hy : fcurve_matches k.rna_path k.array_index c with
    | true => rw [List.find?_cons_of_pos _ hy] at h; cases h
    | false =>
      rw [List.find?_cons_of_neg _ (by simp [hy])] at h
      have hne : k ≠ ⟨c.rna_path, c.array_index⟩ := by
        have := (fcurve_matches_false_iff k.rna_path k.array_index c).mp hy
        intro he
        exact this (by rw [← he])
      calc (eval_curves (c :: cs) lt acc).1.lookup_ptr k
          = (eval_curves cs lt (eval_step lt acc c)).1.lookup_ptr k := rfl
        _ = (eval_step lt acc c).1.lookup_ptr k := ih _ h
        _ = acc.1.lookup_ptr k := store_other_lookup _ _ _ _ _ _ hne

theorem eval_curves_found (cs : List FCurve) (lt : ℚ) (acc : EvaluationResult × Target)
    (k : PropIdentifier) (c : FCurve)
    (hfind : cs.find? (fcurve_matches k.rna_path k.array_index) = some c)
    (hnone : acc.1.lookup_ptr k = none) :
    (eval_curves cs lt acc).1.lookup_ptr k = some ⟨evaluate_fcurve c lt, ⟨k⟩⟩ := by
  induction cs generalizing acc with
  | nil => cases hfind
  | cons c0 cs ih =>
    cases hy : fcurve_matches k.rna_path k.array_index c0 with
    | true =>
      rw [List.find?_cons_of_pos _ hy] at hfind
      have heq : c0 = c := by injection hfind
      subst heq
      have hy2 : c0.rna_path = k.rna_path ∧ c0.array_index = k.array_index := by
        simpa [fcurve_matches] using hy
      have hk : (⟨c0.rna_path, c0.array_index⟩ : PropIdentifier) = k := by
        rw [hy2.1, hy2.2]
      have hstep : (eval_step lt acc c0).1.lookup_ptr k
          = some ⟨evaluate_fcurve c0 lt, ⟨k⟩⟩ := by
        simp only [eval_step, resolve_prop]
        rw [← hk]
        exact store_new_lookup acc.1 c0.rna_path c0.array_index (evaluate_fcurve c0 lt) _
          (by rw [hk]; exact hnone)
      exact eval_curves_preserves cs lt _ k _ hstep
    | false =>
      rw [List.find?_cons_of_neg _ (by simp [hy])] at hfind
      have hne : k ≠ ⟨c0.rna_path, c0.array_index⟩ := by
        have hne2 := (fcurve_matches_false_iff k.rna_path k.array_index c0).mp hy
        intro he
        exact hne2 (by rw [← he])
      refine ih (eval_step lt acc c0) hfind ?_
      exact (store_other_lookup _ _ _ _ _ _ hne).trans hnone

theorem eval_strip_not_contained (o : Nat) (t : ℚ) (acc : EvaluationResult × Target)
    (s : Strip) (h : s.contains_frame (FrameTime.fin t) = false) :
    eval_strip o t acc s = acc := by
  rw [eval_strip, if_neg (by rw [h]; simp)]

theorem eval_strip_no_channels (o : Nat) (t : ℚ) (acc : EvaluationResult × Target)
    (s : Strip) (h : s.channels_for_output o = none) :
    eval_strip o t acc s = acc := by
  rw [eval_strip]
  split
  · rw [h]
  · rfl

theorem eval_strip_preserves (o : Nat) (t : ℚ) (acc : EvaluationResult × Target)
    (s : Strip) (k : PropIdentifier) (v : AnimatedProperty)
    (h : acc.1.lookup_ptr k = some v) :
    (eval_strip o t acc s).1.lookup_ptr k = some v := by
  rw [eval_strip]
  split
  · split
    · exact h
    · exact eval_curves_preserves _ _ _ _ _ h
  · exact h

theorem eval_strip_no_def (o : Nat) (t : ℚ) (acc : EvaluationResult × Target)
    (s : Strip) (k : PropIdentifier)
    (h : s.fcurve_for o k.rna_path k.array_index = none) :
    (eval_strip o t acc s).1.lookup_ptr k = acc.1.lookup_ptr k := by
  rw [eval_strip]
  split
  · rw [Strip.fcurve_for] at h
    split
    · rfl
    · rename_i cfo hcfo
      rw [hcfo] at h
      exact eval_curves_no_match _ _ _ _ (by simpa using h)
  · rfl

theorem eval_strip_defines (o : Nat) (t : ℚ) (acc : EvaluationResult × Target)
    (s : Strip) (k : PropIdentifier) (c : FCurve)
    (hc : s.contains_frame (FrameTime.fin t) = true)
    (hf : s.fcurve_for o k.rna_path k.array_index = some c)
    (hnone : acc.1.lookup_ptr k = none) :
    (eval_strip o t acc s).1.lookup_ptr k
      = some ⟨evaluate_fcurve c (qsub t s.frame_offset), ⟨k⟩⟩ := by
  rw [eval_strip, if_pos (by rw [hc])]
  rw [Strip.fcurve_for] at hf
  split
  · rename_i hcfo
    rw [hcfo] at hf
    cases hf
  · rename_i cfo hcfo
    rw [hcfo] at hf
    exact eval_curves_found _ _ _ _ _ (by simpa using hf) hnone

theorem foldl_eval_strip_none (o : Nat) (t : ℚ) (ss : List Strip)
    (acc : EvaluationResult × Target) (k : PropIdentifier)
    (h : ∀ s ∈ ss, s.contains_frame (FrameTime.fin t) = false ∨
      s.fcurve_for o k.rna_path k.array_index = none)
    (hacc : acc.1.lookup_ptr k = none) :
    (ss.foldl (eval_strip o t) acc).1.lookup_ptr k = none := by
  induction ss generalizing acc with
  | nil => exact hacc
  | cons s ss ih =>
    refine ih _ (fun x hx => h x (List.mem_cons_of_mem s hx)) ?_
    rcases h s (List.mem_cons_self s ss) with hs | hs
    · rw [eval_strip_not_contained o t acc s hs]; exact hacc
    · rw [eval_strip_no_def o t acc s k hs]; exact hacc

theorem foldl_eval_strip_no_channels (o : Nat) (t : ℚ) (ss : List Strip)
    (acc : EvaluationResult × Target)
    (h : ∀ s ∈ ss, s.channels_for_output o = none) :
    ss.foldl (eval_strip o t) acc = acc := by
  induction ss with
  | nil => rfl
  | cons s ss ih =>
    rw [List.foldl_cons, eval_strip_no_channels o t acc s (h s (List.mem_cons_self s ss))]
    exact ih (fun x hx => h x (List.mem_cons_of_mem s hx))

/-- C5: evaluation never mutates the target: for every target, layer,
output index and time, `evaluate_layer_st` hands the target back unchanged
— computed values exist only in the returned EvaluationResult. -/
theorem evaluate_layer_no_mutation (tgt : Target) (layer : Layer) (o : Nat) (t : ℚ) :
    (evaluate_layer_st tgt layer o t).2 = tgt :=
  foldl_eval_strip_snd o t layer.strips.reverse (EvaluationResult.empty, tgt)

/-- C8: a time outside every strip interval that defines a property yields
no entry for that property; a layer with no strips, or whose strips have
no channels for the requested output, yields an empty, falsy result — not
an error. -/
theorem evaluate_layer_absence (tgt : Target) (layer : Layer) (o : Nat) (t : ℚ)
    (path : String) (ai : Int) :
    ((∀ s ∈ layer.strips, s.contains_frame (FrameTime.fin t) = false ∨
        s.fcurve_for o path ai = none) →
      (evaluate_layer tgt layer o t).lookup_ptr ⟨path, ai⟩ = none) ∧
    (layer.strips = [] →
      (evaluate_layer tgt layer o t).is_empty = true ∧
      (evaluate_layer tgt layer o t).toBool = false) ∧
    ((∀ s ∈ layer.strips, s.channels_for_output o = none) →
      (evaluate_layer tgt layer o t).is_empty = true ∧
      (evaluate_layer tgt layer o t).toBool = false) := by
  refine ⟨?_, ?_, ?_⟩
  · intro h
    rw [evaluate_layer, evaluate_layer_st]
    exact foldl_eval_strip_none o t layer.strips.reverse (EvaluationResult.empty, tgt)
      ⟨path, ai⟩ (fun s hs => h s (List.mem_reverse.mp hs)) rfl
  · intro h
    rw [evaluate_layer, evaluate_layer_st, h]
    exact ⟨rfl, rfl⟩
  · intro h
    rw [evaluate_layer, evaluate_layer_st,
      foldl_eval_strip_no_channels o t layer.strips.reverse (EvaluationResult.empty, tgt)
        (fun s hs => h s (List.mem_reverse.mp hs))]
    exact ⟨rfl, rfl⟩

/-- C8 witness: at time 0.999 the overlap layer answers no entry for
location[0]; the empty layer and a foreign output index give empty, falsy
results. -/
theorem evaluate_layer_absence_witness :
    ((evaluate_layer tgt0 layer_overlap 1 (mkRat 999 1000)).lookup_ptr ⟨"location", 0⟩
      = none) ∧
    ((evaluate_layer tgt0 layer_nostrips 1 3).is_empty = true ∧
      (evaluate_layer tgt0 layer_nostrips 1 3).toBool = false) ∧
    ((evaluate_layer tgt0 layer_overlap 2 10).is_empty = true ∧
      (evaluate_layer tgt0 layer_overlap 2 10).toBool = false) :=
  ⟨(evaluate_layer_absence tgt0 layer_overlap 1 (mkRat 999 1000) "location" 0).1 (by decide),
   (evaluate_layer_absence tgt0 layer_nostrips 1 3 "location" 0).2.1 rfl,
   (evaluate_layer_absence tgt0 layer_overlap 2 10 "location" 0).2.2 (by decide)⟩

/-- C1: when both strips of a two-strip layer contain the evaluation time,
the later strip (B) wins every property it defines — its curves are
evaluated at B's local time — and the earlier strip (A) supplies only
properties B does not define; concretely, with A on [1,10] and B on
[10,19] (offset 9) evaluating at 10 returns B's local-time-1 value 47
while evaluating at 3 returns A's interpolated 187. -/
theorem evaluate_layer_overlap_rule (tgt : Target) (layer : Layer) (A B : Strip)
    (hstrips : layer.strips = [A, B]) (o : Nat) (t : ℚ) (path : String) (ai : Int) :
    (B.contains_frame (FrameTime.fin t) = true →
      ∀ c, B.fcurve_for o path ai = some c →
      (evaluate_layer tgt layer o t).lookup_ptr ⟨path, ai⟩
        = some ⟨evaluate_fcurve c (qsub t B.frame_offset), ⟨⟨path, ai⟩⟩⟩) ∧
    (B.fcurve_for o path ai = none →
      A.contains_frame (FrameTime.fin t) = true →
      ∀ c, A.fcurve_for o path ai = some c →
      (evaluate_layer tgt layer o t).lookup_ptr ⟨path, ai⟩
        = some ⟨evaluate_fcurve c (qsub t A.frame_offset), ⟨⟨path, ai⟩⟩⟩) ∧
    ((evaluate_layer tgt0 layer_overlap 1 10).lookup_ptr ⟨"location", 0⟩
        = some ⟨47, ⟨⟨"location", 0⟩⟩⟩ ∧
     (evaluate_layer tgt0 layer_overlap 1 3).lookup_ptr ⟨"location", 0⟩
        = some ⟨187, ⟨⟨"location", 0⟩⟩⟩) := by
  have hfold : evaluate_layer tgt layer o t
      = (eval_strip o t (eval_strip o t (EvaluationResult.empty, tgt) B) A).1 := by
    rw [evaluate_layer, evaluate_layer_st, hstrips]
    rfl
  refine ⟨?_, ?_, by decide, by decide⟩
  · intro hB c hc
    rw [hfold]
    exact eval_strip_preserves o t _ A _ _
      (eval_strip_defines o t (EvaluationResult.empty, tgt) B ⟨path, ai⟩ c hB hc rfl)
  · intro hBnone hA c hc
    rw [hfold]
    refine eval_strip_defines o t _ A ⟨path, ai⟩ c hA hc ?_
    rw [eval_strip_no_def o t (EvaluationResult.empty, tgt) B ⟨path, ai⟩ hBnone]
    rfl

/-- C1 witness: strip B of the overlap fixture contains time 10 and defines
location[0]; the theorem computes B's value there. -/
theorem evaluate_layer_overlap_rule_witness :
    stripB.contains_frame (FrameTime.fin 10) = true ∧
    stripB.fcurve_for 1 "location" 0 = some loc_curve ∧
    (evaluate_layer tgt0 layer_overlap 1 10).lookup_ptr ⟨"location", 0⟩
      = some ⟨evaluate_fcurve loc_curve (qsub 10 stripB.frame_offset), ⟨⟨"location", 0⟩⟩⟩ :=
  ⟨by decide, by decide,
   (evaluate_layer_overlap_rule tgt0 layer_overlap stripA stripB rfl 1 10 "location" 0).1
     (by decide) loc_curve (by decide)⟩

/-- C4: the end-to-end scenario — one infinite Keyframe Strip with
location[0] keys 1 → 47.1 and 5 → 47.5 under linear interpolation,
evaluated at time 3, yields exactly 47.3 for ("location", 0), and the
target is left untouched. -/
theorem evaluate_layer_keyframes_example :
    (mkRat 471 10 : ℚ) = 47.1 ∧ (mkRat 475 10 : ℚ) = 47.5 ∧
    (evaluate_layer tgt0 layer_c4 1 3).lookup_ptr ⟨"location", 0⟩
      = some ⟨47.3, ⟨⟨"location", 0⟩⟩⟩ ∧
    (evaluate_layer_st tgt0 layer_c4 1 3).2 = tgt0 := by
  refine ⟨by rw [mkRat_eq_div']; norm_num, by rw [mkRat_eq_div']; norm_num, ?_, by decide⟩
  rw [show (47.3 : ℚ) = mkRat 473 10 by rw [mkRat_eq_div']; norm_num]
  decide

/-! Lemmas about keyframe insertion handles. -/

theorem fcurve_matches_insert (path : String) (ai : Int) (c : FCurve) (k : Keyframe) :
    fcurve_matches path ai (c.insert k) = fcurve_matches path ai c := rfl

theorem fcurve_matches_mk_keys (path : String) (ai : Int) (c : FCurve) (ks : List Keyframe) :
    fcurve_matches path ai ⟨c.rna_path, c.array_index, ks⟩ = fcurve_matches path ai c := rfl

theorem insert_fcurve_twice (path : String) (ai : Int) (k1 k2 : Keyframe) (l : List FCurve) :
    (insert_fcurve path ai k2 (insert_fcurve path ai k1 l).1).2
        = (insert_fcurve path ai k1 l).2 ∧
    (insert_fcurve path ai k2 (insert_fcurve path ai k1 l).1).1.length
        = (insert_fcurve path ai k1 l).1.length ∧
    (insert_fcurve path ai k2 (insert_fcurve path ai k1 l).1).1.get?
        (insert_fcurve path ai k1 l).2
      = ((insert_fcurve path ai k1 l).1.get? (insert_fcurve path ai k1 l).2).map
          (fun c => c.insert k2) := by
  induction l with
  | nil =>
    refine ⟨?_, ?_, ?_⟩ <;> simp [insert_fcurve, new_fcurve, fcurve_matches]
  | cons c0 cs ih =>
    by_cases hc : fcurve_matches path ai c0 = true
    · refine ⟨?_, ?_, ?_⟩ <;>
        simp [insert_fcurve, hc, fcurve_matches_insert, fcurve_matches_mk_keys, FCurve.insert]
    · have hc' : fcurve_matches path ai c0 = false := by
        revert hc; cases fcurve_matches path ai c0 <;> simp
      refine ⟨?_, ?_, ?_⟩
      · simp [insert_fcurve, hc', ih.1]
      · simp [insert_fcurve, hc', ih.2.1]
      · simpa [insert_fcurve, hc'] using ih.2.2

theorem insert_fcurve_key_at (path : String) (ai : Int) (k : Keyframe) (l : List FCurve) :
    ∃ c, (insert_fcurve path ai k l).1.get? (insert_fcurve path ai k l).2 = some c ∧
      c.rna_path = path ∧ c.array_index = ai := by
  induction l with
  | nil => exact ⟨new_fcurve path ai k, rfl, rfl, rfl⟩
  | cons c0 cs ih =>
    by_cases hc : fcurve_matches path ai c0 = true
    · have hm : c0.rna_path = path ∧ c0.array_index = ai := by
        simpa [fcurve_matches] using hc
      exact ⟨c0.insert k, by simp [insert_fcurve, hc], hm.1, hm.2⟩
    · have hc' : fcurve_matches path ai c0 = false := by
        revert hc; cases fcurve_matches path ai c0 <;> simp
      obtain ⟨c, hg, hp, ha⟩ := ih
      refine ⟨c, ?_, hp, ha⟩
      simpa [insert_fcurve, hc'] using hg

theorem insert_fcurve_preserves_key_at (path : String) (ai : Int) (k : Keyframe)
    (l : List FCurve) (i : Nat) (c : FCurve) (hg : l.get? i = some c)
    (hne : fcurve_matches path ai c = false) :
    (insert_fcurve path ai k l).1.get? i = some c := by
  induction l generalizing i with
  | nil => cases hg
  | cons c0 cs ih =>
    by_cases hc : fcurve_matches path ai c0 = true
    · cases i with
      | zero =>
        rw [List.get?_cons_zero] at hg
        injection hg with hg
        rw [← hg, hc] at hne
        cases hne
      | succ n =>
        rw [List.get?_cons_succ] at hg
        simpa [insert_fcurve, hc] using hg
    · have hc' : fcurve_matches path ai c0 = false := by
        revert hc; cases fcurve_matches path ai c0 <;> simp
      cases i with
      | zero =>
        rw [List.get?_cons_zero] at hg
        simpa [insert_fcurve, hc'] using hg
      | succ n =>
        rw [List.get?_cons_succ] at hg
        simpa [insert_fcurve, hc'] using ih n hg

theorem insert_fcurve_diff (p1 : String) (a1 : Int) (p2 : String) (a2 : Int)
    (k1 k2 : Keyframe) (l : List FCurve) (hne : ¬(p2 = p1 ∧ a2 = a1)) :
    (insert_fcurve p2 a2 k2 (insert_fcurve p1 a1 k1 l).1).2
      ≠ (insert_fcurve p1 a1 k1 l).2 := by
  intro heq
  obtain ⟨c1, hg1, hp1, ha1⟩ := insert_fcurve_key_at p1 a1 k1 l
  have hne1 : fcurve_matches p2 a2 c1 = false := by
    rw [fcurve_matches, hp1, ha1]
    by_contra hb
    have hb2 : p1 = p2 ∧ a1 = a2 := by
      revert hb
      by_cases h1 : p1 = p2 <;> by_cases h2 : a1 = a2 <;> simp [h1, h2]
    exact hne ⟨hb2.1.symm, hb2.2.symm⟩
  have hg1p := insert_fcurve_preserves_key_at p2 a2 k2 (insert_fcurve p1 a1 k1 l).1 _ c1
    hg1 hne1
  obtain ⟨c2, hg2, hp2, ha2⟩ := insert_fcurve_key_at p2 a2 k2 (insert_fcurve p1 a1 k1 l).1
  rw [heq, hg1p] at hg2
  injection hg2 with hg2
  rw [← hg2] at hp2 ha2
  rw [hp1] at hp2
  rw [ha1] at ha2
  exact hne ⟨hp2.symm, ha2.symm⟩

theorem insert_in_channels_twice (o : Nat) (p : String) (a : Int) (k1 k2 : Keyframe)
    (chs : List ChannelsForOutput) :
    (insert_in_channels o p a k2 (insert_in_channels o p a k1 chs).1).2
        = (insert_in_channels o p a k1 chs).2 ∧
    (insert_in_channels o p a k2 (insert_in_channels o p a k1 chs).1).1.length
        = (insert_in_channels o p a k1 chs).1.length ∧
    ((insert_in_channels o p a k2 (insert_in_channels o p a k1 chs).1).1.get?
        (insert_in_channels o p a k1 chs).2.1).map (fun cfo => cfo.fcurves.length)
      = ((insert_in_channels o p a k1 chs).1.get?
          (insert_in_channels o p a k1 chs).2.1).map (fun cfo => cfo.fcurves.length) ∧
    ((insert_in_channels o p a k2 (insert_in_channels o p a k1 chs).1).1.get?
        (insert_in_channels o p a k1 chs).2.1).bind
        (fun cfo => cfo.fcurves.get? (insert_in_channels o p a k1 chs).2.2)
      = (((insert_in_channels o p a k1 chs).1.get?
          (insert_in_channels o p a k1 chs).2.1).bind
          (fun cfo => cfo.fcurves.get? (insert_in_channels o p a k1 chs).2.2)).map
          (fun c => c.insert k2) := by
  induction chs with
  | nil =>
    refine ⟨?_, ?_, ?_, ?_⟩ <;>
      simp [insert_in_channels, insert_fcurve, new_fcurve, fcurve_matches]
  | cons cfo rest ih =>
    by_cases hc : cfo.output_stable_index = o
    · have hf := insert_fcurve_twice p a k1 k2 cfo.fcurves
      refine ⟨?_, ?_, ?_, ?_⟩
      · simp [insert_in_channels, hc, hf.1]
      · simp [insert_in_channels, hc]
      · simpa [insert_in_channels, hc] using hf.2.1
      · simpa [insert_in_channels, hc] using hf.2.2
    · refine ⟨?_, ?_, ?_, ?_⟩
      · simp [insert_in_channels, hc, ih.1]
      · simp [insert_in_channels, hc, ih.2.1]
      · simpa [insert_in_channels, hc] using ih.2.2.1
      · simpa [insert_in_channels, hc] using ih.2.2.2

theorem insert_in_channels_key_at (o : Nat) (p : String) (a : Int) (k : Keyframe)
    (chs : List ChannelsForOutput) :
    ∃ c, ((insert_in_channels o p a k chs).1.get?
        (insert_in_channels o p a k chs).2.1).bind
        (fun cfo => cfo.fcurves.get? (insert_in_channels o p a k chs).2.2) = some c ∧
      c.rna_path = p ∧ c.array_index = a := by
  induction chs with
  | nil => exact ⟨new_fcurve p a k, rfl, rfl, rfl⟩
  | cons cfo rest ih =>
    by_cases hc : cfo.output_stable_index = o
    · obtain ⟨c, hg, hp, ha⟩ := insert_fcurve_key_at p a k cfo.fcurves
      exact ⟨c, by simpa [insert_in_channels, hc] using hg, hp, ha⟩
    · obtain ⟨c, hg, hp, ha⟩ := ih
      exact ⟨c, by simpa [insert_in_channels, hc] using hg, hp, ha⟩

theorem insert_in_channels_diff (o : Nat) (p1 : String) (a1 : Int) (p2 : String)
    (a2 : Int) (k1 k2 : Keyframe) (chs : List ChannelsForOutput)
    (hne : ¬(p2 = p1 ∧ a2 = a1)) :
    (insert_in_channels o p2 a2 k2 (insert_in_channels o p1 a1 k1 chs).1).2
      ≠ (insert_in_channels o p1 a1 k1 chs).2 := by
  induction chs with
  | nil =>
    have hm : fcurve_matches p2 a2 (new_fcurve p1 a1 k1) = false := by
      rw [fcurve_matches]
      by_contra hb
      have hb2 : p1 = p2 ∧ a1 = a2 := by
        revert hb
        by_cases h1 : p1 = p2 <;> by_cases h2 : a1 = a2 <;> simp [h1, h2, new_fcurve]
      exact hne ⟨hb2.1.symm, hb2.2.symm⟩
    simp [insert_in_channels, insert_fcurve, hm]
  | cons cfo rest ih =>
    by_cases hc : cfo.output_stable_index = o
    · have hdiff := insert_fcurve_diff p1 a1 p2 a2 k1 k2 cfo.fcurves hne
      simpa [insert_in_channels, hc, Prod.ext_iff] using hdiff
    · intro h
      apply ih
      rw [Prod.ext_iff] at h ⊢
      simp only [insert_in_channels, hc, if_neg] at h
      simp at h
      exact ⟨by omega, h.2⟩

/-- C7: repeated `keyframe_insert` with the same (output, property_path,
array_index) tuple returns the identical curve handle, with the new key
inserted into that same curve — the channel count and that channel's curve
count are unchanged, so no new curve is created — while a call with a
different property_path or array_index returns a different handle. -/
theorem keyframe_insert_handle_contract (s : Strip) (out : Output)
    (p1 p2 : String) (a1 a2 : Int) (tv1 tv2 tv3 : ℚ × ℚ)
    (st1 st2 st3 : KeyframeSettings) :
    (((s.keyframe_insert out p1 a1 tv1 st1).1.keyframe_insert out p1 a1 tv2 st2).2
        = (s.keyframe_insert out p1 a1 tv1 st1).2) ∧
    (((s.keyframe_insert out p1 a1 tv1 st1).1.keyframe_insert out p1 a1 tv2
        st2).1.channels.length
        = (s.keyframe_insert out p1 a1 tv1 st1).1.channels.length) ∧
    ((((s.keyframe_insert out p1 a1 tv1 st1).1.keyframe_insert out p1 a1 tv2
          st2).1.channels.get? (s.keyframe_insert out p1 a1 tv1 st1).2.1).map
        (fun cfo => cfo.fcurves.length)
      = ((s.keyframe_insert out p1 a1 tv1 st1).1.channels.get?
          (s.keyframe_insert out p1 a1 tv1 st1).2.1).map
          (fun cfo => cfo.fcurves.length)) ∧
    (((s.keyframe_insert out p1 a1 tv1 st1).1.keyframe_insert out p1 a1 tv2 st2).1.curve_at
        (s.keyframe_insert out p1 a1 tv1 st1).2
      = ((s.keyframe_insert out p1 a1 tv1 st1).1.curve_at
          (s.keyframe_insert out p1 a1 tv1 st1).2).map
          (fun c => c.insert ⟨tv2.1, tv2.2, st2.interpolation⟩)) ∧
    (¬(p2 = p1 ∧ a2 = a1) →
      ((s.keyframe_insert out p1 a1 tv1 st1).1.keyframe_insert out p2 a2 tv3 st3).2
        ≠ (s.keyframe_insert out p1 a1 tv1 st1).2) := by
  have ht := insert_in_channels_twice out.stable_index p1 a1
    ⟨tv1.1, tv1.2, st1.interpolation⟩ ⟨tv2.1, tv2.2, st2.interpolation⟩ s.channels
  exact ⟨ht.1, ht.2.1, ht.2.2.1, ht.2.2.2, fun hne =>
    insert_in_channels_diff out.stable_index p1 a1 p2 a2
      ⟨tv1.1, tv1.2, st1.interpolation⟩ ⟨tv3.1, tv3.2, st3.interpolation⟩ s.channels hne⟩

/-- C7 witness: on the test strip, the second location[0] insertion returns
the same handle as the first, and a rotation_quaternion[0] insertion
returns a different one. -/
theorem keyframe_insert_handle_contract_witness :
    (¬("rotation_quaternion" = "location" ∧ (0 : Int) = 0)) ∧
    (((kubus_strip.keyframe_insert out1 "location" 0 (1, 47) lin_settings).1.keyframe_insert
        out1 "location" 0 (5, mkRat 471 10) lin_settings).2
      = (kubus_strip.keyframe_insert out1 "location" 0 (1, 47) lin_settings).2) ∧
    (((kubus_strip.keyframe_insert out1 "location" 0 (1, 47) lin_settings).1.keyframe_insert
        out1 "rotation_quaternion" 0 (1, mkRat 1 4) lin_settings).2
      ≠ (kubus_strip.keyframe_insert out1 "location" 0 (1, 47) lin_settings).2) :=
  ⟨by decide,
   (keyframe_insert_handle_contract kubus_strip out1 "location" "rotation_quaternion" 0 0
      (1, 47) (5, mkRat 471 10) (1, mkRat 1 4) lin_settings lin_settings lin_settings).1,
   (keyframe_insert_handle_contract kubus_strip out1 "location" "rotation_quaternion" 0 0
      (1, 47) (5, mkRat 471 10) (1, mkRat 1 4) lin_settings lin_settings
      lin_settings).2.2.2.2 (by decide)⟩

/-- C9 witness: the characterization at the `[1, 2]` strip's end frame, the
relative bounds at 172800, and the tolerance growth from frame 2 to frame
172800. -/
theorem is_last_frame_tolerance_spec_witness :
    (strip_1_2.frame_end = FrameTime.fin 2 ∧
      (strip_1_2.is_last_frame (FrameTime.fin 2) = true ↔
        |(2 : ℚ) - 2| ≤ Strip.last_frame_tolerance 2)) ∧
    ((1 : ℚ) ≤ |(172800 : ℚ)| ∧
      |(172800 : ℚ)| / 2 ^ 24 < Strip.last_frame_tolerance 172800 ∧
      Strip.last_frame_tolerance 172800 ≤ |(172800 : ℚ)| / 2 ^ 23) ∧
    ((1 : ℚ) ≤ 2 ∧ (2 : ℚ) ≤ 172800 ∧
      Strip.last_frame_tolerance 2 ≤ Strip.last_frame_tolerance 172800) :=
  ⟨⟨rfl, is_last_frame_tolerance_spec.1 strip_1_2 2 2 rfl⟩,
   ⟨by norm_num, is_last_frame_tolerance_spec.2.1 172800 (by norm_num)⟩,
   ⟨by norm_num, by norm_num,
    is_last_frame_tolerance_spec.2.2.1 2 172800 (by norm_num) (by norm_num)⟩⟩

/-- C3: `layer_remove` and `strip_remove` return false with zero side
effects when the argument is not owned by the aggregate (ownership checked
by identity), and otherwise remove it, return true, and decrement the
element count by exactly one. -/
theorem remove_ownership_contract (a : Animation) (l : Layer) (lay : Layer) (s : Strip) :
    ((∀ x ∈ a.layers, x.lid ≠ l.lid) → a.layer_remove l = (a, false)) ∧
    ((∃ x ∈ a.layers, x.lid = l.lid) →
      (a.layer_remove l).2 = true ∧ (a.layer_remove l).1.layers.length + 1 = a.layers.length) ∧
    ((∀ x ∈ lay.strips, x.sid ≠ s.sid) → lay.strip_remove s = (lay, false)) ∧
    ((∃ x ∈ lay.strips, x.sid = s.sid) →
      (lay.strip_remove s).2 = true ∧
      (lay.strip_remove s).1.strips.length + 1 = lay.strips.length) := by
  refine ⟨?_, ?_, ?_, ?_⟩
  · intro h
    have hr := removeFirstBy_not_found (fun x => decide (x.lid = l.lid)) a.layers
      (fun x hx => by simpa using h x hx)
    simp [Animation.layer_remove, hr]
  · intro h
    have hr := removeFirstBy_found (fun x => decide (x.lid = l.lid)) a.layers
      (by obtain ⟨x, hx, he⟩ := h; exact ⟨x, hx, by simpa using he⟩)
    exact ⟨hr.1, hr.2⟩
  · intro h
    have hr := removeFirstBy_not_found (fun x => decide (x.sid = s.sid)) lay.strips
      (fun x hx => by simpa using h x hx)
    simp [Layer.strip_remove, hr]
  · intro h
    have hr := removeFirstBy_found (fun x => decide (x.sid = s.sid)) lay.strips
      (by obtain ⟨x, hx, he⟩ := h; exact ⟨x, hx, by simpa using he⟩)
    exact ⟨hr.1, hr.2⟩

/-- C3 witness: in the three-layer animation of the tests, removing a
foreign layer is rejected without mutation and removing an owned layer
shrinks the count by one; likewise for strips. -/
theorem remove_ownership_contract_witness :
    (anim3.layer_remove other_layer = (anim3, false)) ∧
    ((anim3.layer_remove layer_een).2 = true ∧
      (anim3.layer_remove layer_een).1.layers.length + 1 = anim3.layers.length) ∧
    (layer_3strips.strip_remove foreign_strip = (layer_3strips, false)) ∧
    ((layer_3strips.strip_remove (Strip.infinite 1)).2 = true ∧
      (layer_3strips.strip_remove (Strip.infinite 1)).1.strips.length + 1
        = layer_3strips.strips.length) :=
  ⟨(remove_ownership_contract anim3 other_layer layer_3strips foreign_strip).1 (by decide),
   (remove_ownership_contract anim3 layer_een layer_3strips foreign_strip).2.1 (by decide),
   (remove_ownership_contract anim3 other_layer layer_3strips foreign_strip).2.2.1 (by decide),
   (remove_ownership_contract anim3 other_layer layer_3strips (Strip.infinite 1)).2.2.2 (by decide)⟩

/-- C6: `output_add` allocates `last_output_stable_index + 1`, appends the
Output (existing entries untouched), and consecutive additions produce
strictly increasing stable indices; from a fresh Animation the indices are
1 and 2 and `last_output_stable_index` ends at 2. -/
theorem output_add_stable_indices :
    (∀ a : Animation,
      (a.output_add).2.stable_index = a.last_output_stable_index + 1 ∧
      (a.output_add).1.last_output_stable_index = a.last_output_stable_index + 1 ∧
      (a.output_add).1.outputs = a.outputs ++ [(a.output_add).2] ∧
      (a.output_add).2.stable_index < ((a.output_add).1.output_add).2.stable_index) ∧
    ((Animation.empty.output_add).2.stable_index = 1 ∧
     ((Animation.empty.output_add).1.output_add).2.stable_index = 2 ∧
     ((Animation.empty.output_add).1.output_add).1.last_output_stable_index = 2) :=
  ⟨fun _ => ⟨rfl, rfl, rfl, Nat.lt_succ_self _⟩, by decide⟩

/-- C10: a fresh Output has empty `fallback` and zero `idtype` until
`assign_id`, which sets `idtype` to the two-character type tag at the start
of the ID's name and `fallback` to the name with that prefix dropped;
binding an ID named "OBKüüübus" yields fallback "Küüübus". -/
theorem output_defaults_and_assign_id :
    (∀ a : Animation, (a.output_add).2.fallback = "" ∧ (a.output_add).2.idtype = 0) ∧
    (∀ (o : Output) (idb : ID),
      (o.assign_id idb).idtype = gs idb.name ∧
      (o.assign_id idb).fallback = String.mk (idb.name.data.drop 2) ∧
      (o.assign_id idb).stable_index = o.stable_index) ∧
    (out1.fallback = "" ∧ out1.idtype = 0 ∧
     out_cube.idtype = gs "OBKüüübus" ∧ out_cube.fallback = "Küüübus" ∧
     out_cube.stable_index = 1) :=
  ⟨fun _ => ⟨rfl, rfl⟩, fun _ _ => ⟨rfl, rfl, rfl⟩, by decide⟩

end Animrig
